import Mathlib

set_option linter.unusedVariables false

/-!
Verification of the retrieval pipeline of the AIU chatbot (src/app.py):
chunking (split_into_chunks), indexing (build_index), keyword search
(search_index), and the two-tier answer generation (generate_answer with
the deterministic fallback build_strict_answer_from_chunks).

Text is modelled as a list of characters.  Python string operations used by
the pipeline (strip, lower, split, substring containment via the in
operator) are given explicit definitions below.
-/

namespace AIU

/-- Model of Python str.strip with no argument: remove leading and trailing
whitespace characters. -/
def strip (s : List Char) : List Char :=
  ((s.dropWhile Char.isWhitespace).reverse.dropWhile Char.isWhitespace).reverse

/-- Model of Python str.lower: character-wise lowercasing. -/
def lower (s : List Char) : List Char :=
  s.map Char.toLower

/-- Model of Python str.split with no argument: split on runs of whitespace,
dropping empty fragments. -/
def split_ws (s : List Char) : List (List Char) :=
  (s.splitOnP Char.isWhitespace).filter (fun w => !w.isEmpty)

/-- Whether the second list begins with the first list. -/
def starts_with : List Char → List Char → Bool
  | [], _ => true
  | _ :: _, [] => false
  | a :: pat, b :: s => a == b && starts_with pat s

/-- Model of the Python expression pat in s on strings: pat occurs as a
contiguous substring of s. -/
def is_substring (pat : List Char) : List Char → Bool
  | [] => pat.isEmpty
  | c :: rest => starts_with pat (c :: rest) || is_substring pat rest

/-- CHUNK_SIZE constant of app.py. -/
def CHUNK_SIZE : Nat := 900

/-- MAX_CONTEXT_CHUNKS constant of app.py. -/
def MAX_CONTEXT_CHUNKS : Nat := 4

/-- Loop body of split_into_chunks of app.py: while text remains, append
the stripped slice text[start : start + chunk_size] and advance start by
chunk_size.  The remaining text plays the role of start; the fuel argument
merely bounds the number of iterations so that the recursion is structural:
whenever 0 < chunk_size, every iteration consumes at least one character,
so fuel = initial length is never exhausted.  (For chunk_size = 0 the
Python loop does not terminate; that case is never used, as the only
caller passes CHUNK_SIZE = 900.) -/
def split_loop (chunk_size : Nat) : Nat → List Char → List (List Char)
  | _, [] => []
  | 0, _ :: _ => []
  | fuel + 1, c :: t =>
    strip ((c :: t).take chunk_size) :: split_loop chunk_size fuel ((c :: t).drop chunk_size)

/-- split_into_chunks of app.py. -/
def split_into_chunks (text : List Char) (chunk_size : Nat) : List (List Char) :=
  split_loop chunk_size text.length text

/-- build_index of app.py: for each (name, text) document append every
non-empty chunk of split_into_chunks (Python truthiness: if chunk) as
(name, chunk). -/
def build_index (documents : List (List Char × List Char)) : List (List Char × List Char) :=
  documents.foldl (fun index doc =>
    (split_into_chunks doc.2 CHUNK_SIZE).foldl
      (fun idx chunk => if chunk.isEmpty then idx else idx ++ [(doc.1, chunk)]) index) []

/-- The significant words of a query, as computed inside search_index of
app.py: strip and lowercase the query, split on whitespace, and keep the
words of length greater than 2. -/
def query_words (query : List Char) : List (List Char) :=
  (split_ws (lower (strip query))).filter (fun w => decide (2 < w.length))

/-- The score the inner loop of search_index assigns to one chunk: one unit
for every entry of the query word list (with multiplicity) that occurs as a
substring of the lowercased chunk. -/
def chunk_score (qws : List (List Char)) (chunk : List Char) : Nat :=
  let chunk_lower := lower chunk
  qws.foldl (fun score word => if is_substring word chunk_lower then score + 1 else score) 0

/-- The scored_chunks list of search_index of app.py: every index entry with
positive score, as (score, doc_name, chunk), in index order. -/
def scored_chunks (qws : List (List Char)) (index : List (List Char × List Char)) :
    List (Nat × List Char × List Char) :=
  index.foldl (fun acc entry =>
    let score := chunk_score qws entry.2
    if 0 < score then acc ++ [(score, entry.1, entry.2)] else acc) []

/-- The ordering used by scored_chunks.sort(key score, reverse True) of
app.py: score of the first argument at least the score of the second. -/
def score_ge (a b : Nat × List Char × List Char) : Prop := b.1 ≤ a.1

instance : DecidableRel score_ge := fun a b => Nat.decLe b.1 a.1

instance : IsTotal (Nat × List Char × List Char) score_ge := ⟨fun a b => Nat.le_total b.1 a.1⟩

instance : IsTrans (Nat × List Char × List Char) score_ge :=
  ⟨fun _ _ _ hab hbc => Nat.le_trans hbc hab⟩

/-- The top_chunks list of search_index of app.py: scored_chunks sorted by
descending score and truncated to MAX_CONTEXT_CHUNKS.  Python list.sort is
stable; insertionSort with score_ge is the stable descending sort, hence
computes the same list. -/
def search_scored (query : List Char) (index : List (List Char × List Char)) :
    List (Nat × List Char × List Char) :=
  (List.insertionSort score_ge (scored_chunks (query_words query) index)).take MAX_CONTEXT_CHUNKS

/-- search_index of app.py.  The two early returns mirror the guards on the
stripped lowercased query and on the significant word list. -/
def search_index (query : List Char) (index : List (List Char × List Char)) :
    List (List Char × List Char) :=
  if (lower (strip query)).isEmpty then []
  else if (query_words query).isEmpty then []
  else (search_scored query index).map (fun e => (e.2.1, e.2.2))

/-- Greedy line filling: lay words onto the current line while the line
stays within width, otherwise start a new line. -/
def wrap_greedy (width : Nat) (line : List Char) : List (List Char) → List Char
  | [] => line
  | w :: rest =>
    if line.length + 1 + w.length ≤ width then wrap_greedy width (line ++ (' ' :: w)) rest
    else line ++ ('\n' :: wrap_greedy width w rest)

/-- Model of Python textwrap.fill(text, width) with default options:
whitespace runs are collapsed, words are laid out greedily on lines of at
most width characters separated by single spaces.  Hyphen-based word
splitting and the breaking of words longer than the width are not
modelled; such words occupy a line of their own. -/
def textwrap_fill (text : List Char) (width : Nat) : List Char :=
  match split_ws text with
  | [] => []
  | w :: rest => wrap_greedy width w rest

/-- The no-match message of build_strict_answer_from_chunks of app.py. -/
def strict_no_match_message : List Char :=
  ("I could not find an exact answer to your question in the available PDFs. Please try rephrasing your question or checking the documents directly.").toList

/-- build_strict_answer_from_chunks of app.py: the deterministic non-LLM
fallback, one block From **doc**: followed by the wrapped chunk text per
match, joined by the --- separator. -/
def build_strict_answer_from_chunks (match_list : List (List Char × List Char)) : List Char :=
  if match_list.isEmpty then strict_no_match_message
  else
    let blocks := match_list.map (fun m =>
      ("From **").toList ++ m.1 ++ ("**:\n\n").toList ++ textwrap_fill m.2 90)
    List.intercalate (("\n\n---\n\n").toList) blocks

/-- The no-match message of generate_answer of app.py. -/
def no_match_message : List Char :=
  ("I could not find a matching answer to your question in the PDFs. Try using different words that might appear in the documents.").toList

/-- generate_answer of app.py.  The external call_ollama_llm backend is
modelled by the llm parameter: some answer for a successful call, none when
the call raises.  The second component of the result counts the attempts
made to contact the backend (call_ollama_llm is called at most once per
invocation, inside the try block).  The use_llm parameter is part of the
Python signature and, as in the source, is never read. -/
def generate_answer (llm : List Char → List Char → Option (List Char)) (query : List Char)
    (index : List (List Char × List Char)) (use_llm : Bool) : List Char × Nat :=
  let match_list := search_index query index
  if match_list.isEmpty then (no_match_message, 0)
  else
    let context_pieces := match_list.map (fun m => ("Document: ").toList ++ m.1 ++ ('\n' :: m.2))
    let context_text := List.intercalate (("\n\n-----\n\n").toList) context_pieces
    match llm query context_text with
    | some llm_answer => (llm_answer, 1)
    | none => (build_strict_answer_from_chunks match_list, 1)

/-- Scoring as worded by the spec, for comparison with chunk_score: the
number of distinct significant query words that occur as a substring of the
lowercased chunk text. -/
def distinct_containment_score (query chunk : List Char) : Nat :=
  (((query_words query).dedup).filter (fun w => is_substring w (lower chunk))).length

/-! ## Helper lemmas about chunking -/

theorem strip_length_le (s : List Char) : (strip s).length ≤ s.length := by
  unfold strip
  calc ((s.dropWhile Char.isWhitespace).reverse.dropWhile Char.isWhitespace).reverse.length
      = ((s.dropWhile Char.isWhitespace).reverse.dropWhile Char.isWhitespace).length := by
        rw [List.length_reverse]
    _ ≤ (s.dropWhile Char.isWhitespace).reverse.length :=
        (List.dropWhile_sublist Char.isWhitespace).length_le
    _ = (s.dropWhile Char.isWhitespace).length := by rw [List.length_reverse]
    _ ≤ s.length := (List.dropWhile_sublist Char.isWhitespace).length_le

theorem num_chunks_succ {s n : Nat} (hs : 0 < s) (hn : 0 < n) :
    (n + s - 1) / s = (n - 1) / s + 1 := by
  have h1 : n + s - 1 = (n - 1) + s := by omega
  rw [h1, Nat.add_div_right _ hs]

theorem num_chunks_drop {s n : Nat} (hs : 0 < s) (hn : 0 < n) :
    (n - s + s - 1) / s = (n - 1) / s := by
  rcases Nat.lt_or_ge (n - 1) s with hlt | hge
  · have h0 : n - s + s - 1 = s - 1 := by omega
    rw [h0, Nat.div_eq_of_lt (by omega : s - 1 < s), Nat.div_eq_of_lt hlt]
  · have h1 : n - s + s - 1 = (n - 1 - s) + s := by omega
    have h2 : n - 1 = (n - 1 - s) + s := by omega
    rw [h1, Nat.add_div_right _ hs]
    conv_rhs => rw [h2]
    rw [Nat.add_div_right _ hs]

theorem split_loop_eq (s : Nat) (hs : 0 < s) :
    ∀ (fuel : Nat) (text : List Char), text.length ≤ fuel →
      split_loop s fuel text =
        (List.range ((text.length + s - 1) / s)).map
          (fun i => strip ((text.drop (i * s)).take s)) := by
  intro fuel
  induction fuel with
  | zero =>
    intro text hlen
    have ht : text = [] := List.eq_nil_of_length_eq_zero (Nat.le_zero.mp hlen)
    subst ht
    simp only [split_loop, List.length_nil, Nat.zero_add]
    rw [Nat.div_eq_of_lt (by omega : s - 1 < s)]
    simp
  | succ fuel ih =>
    intro text hlen
    cases text with
    | nil =>
      simp only [split_loop, List.length_nil, Nat.zero_add]
      rw [Nat.div_eq_of_lt (by omega : s - 1 < s)]
      simp
    | cons c t =>
      have hn : 0 < (c :: t).length := by simp
      have hdroplen : ((c :: t).drop s).length ≤ fuel := by
        rw [List.length_drop]
        simp only [List.length_cons] at hlen ⊢
        omega
      rw [split_loop, num_chunks_succ hs hn, List.range_succ_eq_map, List.map_cons,
        List.map_map, ih ((c :: t).drop s) hdroplen]
      congr 1
      · simp
      · rw [List.length_drop, num_chunks_drop hs hn]
        apply List.map_congr_left
        intro i hi
        simp only [Function.comp_apply]
        rw [List.drop_drop]
        have h3 : s + i * s = Nat.succ i * s := by rw [Nat.succ_mul, Nat.add_comm]
        rw [h3]

theorem split_into_chunks_eq (text : List Char) (s : Nat) (hs : 0 < s) :
    split_into_chunks text s =
      (List.range ((text.length + s - 1) / s)).map
        (fun i => strip ((text.drop (i * s)).take s)) :=
  split_loop_eq s hs text.length text (Nat.le_refl _)

/-! ## Helper lemmas about scoring and the index -/

theorem foldl_count_aux (p : List Char → Bool) :
    ∀ (l : List (List Char)) (acc : Nat),
      l.foldl (fun score w => if p w then score + 1 else score) acc = acc + l.countP p := by
  intro l
  induction l with
  | nil => intro acc; simp
  | cons w rest ih =>
    intro acc
    rw [List.foldl_cons, List.countP_cons]
    by_cases hp : p w
    · rw [if_pos hp, ih, if_pos hp]; omega
    · rw [if_neg hp, ih, if_neg hp]; omega

theorem chunk_score_eq (qws : List (List Char)) (chunk : List Char) :
    chunk_score qws chunk = qws.countP (fun w => is_substring w (lower chunk)) := by
  simp only [chunk_score]
  rw [foldl_count_aux, Nat.zero_add]

theorem scored_chunks_foldl_aux (qws : List (List Char)) :
    ∀ (index : List (List Char × List Char)) (acc : List (Nat × List Char × List Char)),
      index.foldl (fun acc entry =>
          let score := chunk_score qws entry.2
          if 0 < score then acc ++ [(score, entry.1, entry.2)] else acc) acc =
        acc ++ index.filterMap (fun entry =>
          if 0 < chunk_score qws entry.2 then
            some (chunk_score qws entry.2, entry.1, entry.2)
          else none) := by
  intro index
  induction index with
  | nil => intro acc; simp
  | cons e rest ih =>
    intro acc
    rw [List.foldl_cons, List.filterMap_cons]
    by_cases hp : 0 < chunk_score qws e.2
    · simp [hp, ih]
    · simp [hp, ih]

theorem scored_chunks_eq (qws : List (List Char)) (index : List (List Char × List Char)) :
    scored_chunks qws index =
      index.filterMap (fun entry =>
        if 0 < chunk_score qws entry.2 then
          some (chunk_score qws entry.2, entry.1, entry.2)
        else none) := by
  simp only [scored_chunks]
  rw [scored_chunks_foldl_aux, List.nil_append]

theorem scored_chunks_proj_sublist (qws : List (List Char))
    (index : List (List Char × List Char)) :
    ((scored_chunks qws index).map (fun e => (e.2.1, e.2.2))).Sublist index := by
  rw [scored_chunks_eq]
  induction index with
  | nil => simp
  | cons e rest ih =>
    rw [List.filterMap_cons]
    by_cases hp : 0 < chunk_score qws e.2
    · rw [if_pos hp, List.map_cons]
      exact List.Sublist.cons₂ e ih
    · rw [if_neg hp]
      exact List.Sublist.cons e ih

theorem inner_foldl_eq (name : List Char) :
    ∀ (chunks : List (List Char)) (acc : List (List Char × List Char)),
      chunks.foldl (fun idx chunk => if chunk.isEmpty then idx else idx ++ [(name, chunk)]) acc =
        acc ++ (chunks.filter (fun c => !c.isEmpty)).map (fun c => (name, c)) := by
  intro chunks
  induction chunks with
  | nil => intro acc; simp
  | cons ch rest ih =>
    intro acc
    rw [List.foldl_cons, ih, List.filter_cons]
    cases ch with
    | nil => simp
    | cons a as => simp

theorem build_index_eq (documents : List (List Char × List Char)) :
    build_index documents = documents.flatMap (fun doc =>
      ((split_into_chunks doc.2 CHUNK_SIZE).filter (fun c => !c.isEmpty)).map
        (fun c => (doc.1, c))) := by
  simp only [build_index]
  suffices h : ∀ (docs : List (List Char × List Char)) (acc : List (List Char × List Char)),
      docs.foldl (fun index doc =>
        (split_into_chunks doc.2 CHUNK_SIZE).foldl
          (fun idx chunk => if chunk.isEmpty then idx else idx ++ [(doc.1, chunk)]) index) acc =
      acc ++ docs.flatMap (fun doc =>
        ((split_into_chunks doc.2 CHUNK_SIZE).filter (fun c => !c.isEmpty)).map
          (fun c => (doc.1, c))) by
    rw [h documents [], List.nil_append]
  intro docs
  induction docs with
  | nil => intro acc; simp
  | cons d rest ih =>
    intro acc
    rw [List.foldl_cons, inner_foldl_eq, ih, List.flatMap_cons, List.append_assoc]

/-! ## Helper lemmas about the stable descending sort -/

theorem filter_orderedInsert_score (s : Nat) (a : Nat × List Char × List Char) :
    ∀ l : List (Nat × List Char × List Char),
      (List.orderedInsert score_ge a l).filter (fun e => e.1 == s) =
        if a.1 = s then a :: l.filter (fun e => e.1 == s)
        else l.filter (fun e => e.1 == s) := by
  intro l
  induction l with
  | nil =>
    by_cases ha : a.1 = s <;> simp [List.orderedInsert, ha]
  | cons b t ih =>
    simp only [List.orderedInsert]
    by_cases hab : score_ge a b
    · rw [if_pos hab]
      by_cases ha : a.1 = s <;> simp [List.filter_cons, ha]
    · rw [if_neg hab]
      have hb_gt : a.1 < b.1 := by
        simp only [score_ge] at hab
        omega
      by_cases ha : a.1 = s
      · have hb : b.1 ≠ s := by omega
        simp [List.filter_cons, ha, hb, ih]
      · simp [List.filter_cons, ha, ih]

theorem filter_insertionSort_score (s : Nat) :
    ∀ l : List (Nat × List Char × List Char),
      (List.insertionSort score_ge l).filter (fun e => e.1 == s) =
        l.filter (fun e => e.1 == s) := by
  intro l
  induction l with
  | nil => rfl
  | cons b t ih =>
    rw [List.insertionSort, filter_orderedInsert_score, ih, List.filter_cons]
    by_cases hb : b.1 = s <;> simp [hb]

theorem split_into_chunks_get (text : List Char) (s : Nat) (hs : 0 < s)
    (i : Nat) (hi : i < (split_into_chunks text s).length) :
    (split_into_chunks text s).get ⟨i, hi⟩ = strip ((text.drop (i * s)).take s) := by
  have heq := split_into_chunks_eq text s hs
  revert hi
  rw [heq]
  intro hi
  simp

/-! ## Claims -/

/-- Claim C3, counterexample: the claim says substrings of the partition
that trim to the empty string are omitted from the output of
split_into_chunks, but on the four-character text with one letter followed
by three spaces and chunk size 2 the output contains the empty string. -/
theorem claim_C3_counterexample :
    0 < 2 ∧ [] ∈ split_into_chunks ("a   ").toList 2 := by
  decide

/-- Claim C3, amended: split_into_chunks itself does NOT omit the
substrings of the partition that trim to the empty string; every slice
[i * size, (i+1) * size) contributes exactly one output element, its
trimmed text, and the boundaries are computed purely from character
offsets.  (The empty entries are filtered out downstream, in build_index.) -/
theorem claim_C3_amended (text : List Char) (s : Nat) (hs : 0 < s) :
    split_into_chunks text s =
      (List.range ((text.length + s - 1) / s)).map
        (fun i => strip ((text.drop (i * s)).take s)) :=
  split_into_chunks_eq text s hs

/-- Witness for claim C3: the amended characterization evaluated on the
counterexample text. -/
theorem claim_C3_amended_witness :
    0 < 2 ∧ split_into_chunks ("a   ").toList 2 =
      (List.range ((("a   ").toList.length + 2 - 1) / 2)).map
        (fun i => strip ((("a   ").toList.drop (i * 2)).take 2)) :=
  ⟨by decide, claim_C3_amended (("a   ").toList) 2 (by decide)⟩

/-- Claim C5, counterexample: the claim says a text shorter than the chunk
size that trims to empty yields zero chunks, but a two-space text with
chunk size 5 yields exactly one chunk, the empty string. -/
theorem claim_C5_counterexample :
    ("  ").toList.length < 5 ∧ strip (("  ").toList) = [] ∧
    split_into_chunks ("  ").toList 5 = [[]] := by
  decide

/-- Claim C5, amended: for every positive chunk size the i-th chunk of
split_into_chunks is exactly the character range [i * size, (i+1) * size)
of the text trimmed of leading and trailing whitespace, so every chunk has
length at most the chunk size; a NON-EMPTY text shorter than the chunk
size yields exactly one chunk (which may be the empty string when the text
trims to empty), and only the empty text yields zero chunks. -/
theorem claim_C5_amended (text : List Char) (s : Nat) (hs : 0 < s) :
    (∀ i (hi : i < (split_into_chunks text s).length),
        (split_into_chunks text s).get ⟨i, hi⟩ = strip ((text.drop (i * s)).take s) ∧
        ((split_into_chunks text s).get ⟨i, hi⟩).length ≤ s) ∧
    (text ≠ [] → text.length < s → (split_into_chunks text s).length = 1) ∧
    (text = [] → split_into_chunks text s = []) := by
  refine ⟨?_, ?_, ?_⟩
  · intro i hi
    have hget := split_into_chunks_get text s hs i hi
    refine ⟨hget, ?_⟩
    rw [hget]
    refine Nat.le_trans (strip_length_le _) ?_
    rw [List.length_take]
    exact Nat.min_le_left _ _
  · intro hne hlen
    rw [split_into_chunks_eq text s hs]
    have hn : 0 < text.length := List.length_pos.mpr hne
    simp only [List.length_map, List.length_range]
    rw [num_chunks_succ hs hn, Nat.div_eq_of_lt (by omega)]
  · intro hnil
    subst hnil
    rfl

/-- Witness for claim C5: on a two-character text with chunk size 900 the
amended theorem yields exactly one chunk. -/
theorem claim_C5_amended_witness :
    ("hi").toList ≠ [] ∧ ("hi").toList.length < 900 ∧
    (split_into_chunks ("hi").toList 900).length = 1 :=
  ⟨by decide, by decide,
    (claim_C5_amended (("hi").toList) 900 (by decide)).2.1 (by decide) (by decide)⟩

/-- Claim C7: a query whose significant word list is empty (in particular
the empty query and a whitespace-only query, whose stripped text is empty)
makes search_index return the empty result, an ordinary value rather than
an error. -/
theorem claim_C7 (query : List Char) (index : List (List Char × List Char))
    (h : query_words query = []) :
    search_index query index = [] := by
  simp [search_index, h]

/-- Witness for claim C7: the two empty-query laws of the spec, obtained
from the claim theorem on the empty query and on the two-space query. -/
theorem claim_C7_witness :
    query_words (("  ").toList) = [] ∧
    search_index ("").toList [(("d").toList, ("abc").toList)] = [] ∧
    search_index ("  ").toList [(("d").toList, ("abc").toList)] = [] :=
  ⟨by decide, claim_C7 _ _ (by decide), claim_C7 _ _ (by decide)⟩

/-- Claim C9: build_index is exactly the in-order concatenation, document
by document, of the non-empty chunks of each document tagged with the
document name (so every non-empty chunk appears exactly once, in document
order then position order), and no entry of the index has empty chunk
text. -/
theorem claim_C9 (documents : List (List Char × List Char)) :
    build_index documents =
      documents.flatMap (fun doc =>
        ((split_into_chunks doc.2 CHUNK_SIZE).filter (fun c => !c.isEmpty)).map
          (fun c => (doc.1, c))) ∧
    ∀ p ∈ build_index documents, p.2 ≠ [] := by
  refine ⟨build_index_eq documents, ?_⟩
  intro p hp
  rw [build_index_eq] at hp
  rcases List.mem_flatMap.mp hp with ⟨doc, hdoc, hmem⟩
  rcases List.mem_map.mp hmem with ⟨c, hc, hpc⟩
  have hcne := (List.mem_filter.mp hc).2
  rw [← hpc]
  simp only [ne_eq]
  intro hcontra
  rw [hcontra] at hcne
  simp at hcne

/-- Witness for claim C9: the index of a single two-character document has
the single non-empty chunk, whose text is non-empty. -/
theorem claim_C9_witness :
    (("d").toList, ("ab").toList).2 ≠ [] :=
  (claim_C9 [(("d").toList, ("ab").toList)]).2 (("d").toList, ("ab").toList) (by decide)

theorem intercalate_cons_head (sep x : List Char) (xs : List (List Char)) :
    ∃ t, List.intercalate sep (x :: xs) = x ++ t := by
  cases xs with
  | nil =>
    refine ⟨[], ?_⟩
    simp [List.intercalate]
  | cons y ys =>
    refine ⟨sep ++ (List.intersperse sep (y :: ys)).flatten, ?_⟩
    simp [List.intercalate, List.intersperse]

theorem build_strict_answer_eq (match_list : List (List Char × List Char))
    (h : match_list ≠ []) :
    build_strict_answer_from_chunks match_list =
      List.intercalate (("\n\n---\n\n").toList)
        (match_list.map (fun m =>
          ("From **").toList ++ m.1 ++ ("**:\n\n").toList ++ textwrap_fill m.2 90)) := by
  have hc : match_list.isEmpty = false := by
    cases match_list with
    | nil => exact absurd rfl h
    | cons a as => rfl
  simp [build_strict_answer_from_chunks, hc]

theorem build_strict_answer_ne_nil (match_list : List (List Char × List Char))
    (h : match_list ≠ []) : build_strict_answer_from_chunks match_list ≠ [] := by
  cases match_list with
  | nil => exact absurd rfl h
  | cons m rest =>
    rw [build_strict_answer_eq _ h, List.map_cons]
    rcases intercalate_cons_head (("\n\n---\n\n").toList)
        ((("From **").toList ++ m.1 ++ ("**:\n\n").toList ++ textwrap_fill m.2 90))
        (rest.map (fun m =>
          ("From **").toList ++ m.1 ++ ("**:\n\n").toList ++ textwrap_fill m.2 90)) with ⟨t, ht⟩
    rw [ht]
    simp

theorem generate_answer_fallback (query : List Char) (index : List (List Char × List Char))
    (u : Bool) (h : search_index query index ≠ []) :
    (generate_answer (fun _ _ => none) query index u).1 =
      build_strict_answer_from_chunks (search_index query index) := by
  have hc : (search_index query index).isEmpty = false := by
    cases hx : search_index query index with
    | nil => exact absurd hx h
    | cons a as => rfl
  simp [generate_answer, hc]

/-- Claim C2: when search_index returns at least one match and every call
to the generation backend raises, generate_answer still returns a
non-empty answer, namely one block per match rendering From **document**:
followed by the chunk text reflowed to a line width of 90 characters, the
blocks joined by the visual separator. -/
theorem claim_C2 (query : List Char) (index : List (List Char × List Char)) (u : Bool)
    (h : search_index query index ≠ []) :
    (generate_answer (fun _ _ => none) query index u).1 =
      List.intercalate (("\n\n---\n\n").toList)
        ((search_index query index).map (fun m =>
          ("From **").toList ++ m.1 ++ ("**:\n\n").toList ++ textwrap_fill m.2 90)) ∧
    (generate_answer (fun _ _ => none) query index u).1 ≠ [] := by
  rw [generate_answer_fallback query index u h]
  exact ⟨build_strict_answer_eq _ h, build_strict_answer_ne_nil _ h⟩

/-- Witness for claim C2: a one-entry index matching the query policy
yields a non-empty fallback answer under an always-failing backend. -/
theorem claim_C2_witness :
    search_index ("policy").toList [(("Doc.pdf").toList, ("the policy text").toList)] ≠ [] ∧
    (generate_answer (fun _ _ => none) ("policy").toList
        [(("Doc.pdf").toList, ("the policy text").toList)] true).1 ≠ [] :=
  ⟨by decide,
    (claim_C2 (("policy").toList) [(("Doc.pdf").toList, ("the policy text").toList)] true
      (by decide)).2⟩

/-- Claim C6: when search_index returns zero matches generate_answer
returns the fixed no-match message and makes zero attempts to contact the
generation backend; when at least one match exists exactly one backend
attempt is made, whatever the backend outcome. -/
theorem claim_C6 (llm : List Char → List Char → Option (List Char)) (query : List Char)
    (index : List (List Char × List Char)) (u : Bool) :
    (search_index query index = [] →
      generate_answer llm query index u = (no_match_message, 0)) ∧
    (search_index query index ≠ [] → (generate_answer llm query index u).2 = 1) := by
  constructor
  · intro h
    simp [generate_answer, h]
  · intro h
    have hc : (search_index query index).isEmpty = false := by
      cases hx : search_index query index with
      | nil => exact absurd hx h
      | cons a as => rfl
    simp only [generate_answer, hc, Bool.false_eq_true, if_false]
    split <;> rfl

/-- Witness for claim C6: zero backend attempts on a no-match query and
exactly one attempt on a matching query, for a succeeding backend. -/
theorem claim_C6_witness :
    generate_answer (fun _ _ => some (("ok").toList)) ("zzz").toList
        [(("Doc.pdf").toList, ("the policy text").toList)] true = (no_match_message, 0) ∧
    (generate_answer (fun _ _ => some (("ok").toList)) ("policy").toList
        [(("Doc.pdf").toList, ("the policy text").toList)] true).2 = 1 :=
  ⟨(claim_C6 (fun _ _ => some (("ok").toList)) (("zzz").toList)
      [(("Doc.pdf").toList, ("the policy text").toList)] true).1 (by decide),
    (claim_C6 (fun _ _ => some (("ok").toList)) (("policy").toList)
      [(("Doc.pdf").toList, ("the policy text").toList)] true).2 (by decide)⟩

/-- Claim C1, counterexample: the claim says the score equals the number
of DISTINCT significant query words contained in the chunk, with a
repeated query word contributing exactly 1; but on the query consisting of
the word abc twice, a chunk containing abc is scored 2 while the distinct
count is 1 (the query word list is a list, not a set). -/
theorem claim_C1_counterexample :
    scored_chunks (query_words ("abc abc").toList) [(("d").toList, ("abc").toList)] =
      [(2, ("d").toList, ("abc").toList)] ∧
    distinct_containment_score ("abc abc").toList ("abc").toList = 1 ∧
    (2 : Nat) ≠ 1 := by
  decide

/-- Claim C1, amended: the score search_index assigns to a chunk equals
the number of entries of the significant query word list, counted WITH
multiplicity in the query, that occur as a substring of the lowercased
chunk text; a word that occurs many times within the chunk still
contributes exactly 1 per query occurrence (containment, not chunk
frequency). -/
theorem claim_C1_amended (query : List Char) (index : List (List Char × List Char))
    (e : Nat × List Char × List Char)
    (he : e ∈ scored_chunks (query_words query) index) :
    e.1 = (query_words query).countP (fun w => is_substring w (lower e.2.2)) := by
  rw [scored_chunks_eq] at he
  rcases List.mem_filterMap.mp he with ⟨a, ha, hfa⟩
  split at hfa
  · injection hfa with h1
    rw [← h1]
    exact chunk_score_eq _ _
  · exact Option.noConfusion hfa

/-- Witness for claim C1: the amended score law evaluated on the repeated
query of the counterexample. -/
theorem claim_C1_amended_witness :
    (2, ("d").toList, ("abc").toList) ∈
      scored_chunks (query_words ("abc abc").toList) [(("d").toList, ("abc").toList)] ∧
    (2, ("d").toList, ("abc").toList).1 =
      (query_words ("abc abc").toList).countP
        (fun w => is_substring w (lower ((2, ("d").toList, ("abc").toList)).2.2)) :=
  ⟨by decide,
    claim_C1_amended (("abc abc").toList) [(("d").toList, ("abc").toList)]
      (2, ("d").toList, ("abc").toList) (by decide)⟩

/-- Claim C4: the descending sort performed by search_index is stable with
respect to the original index order: for every score value, the equal-score
entries of the sorted scored list are exactly the equal-score entries of
scored_chunks in their original order, and scored_chunks itself lists the
index entries in index order (its projection is a sublist of the index).
Hence two chunks with the same positive score appear in the result in
index order. -/
theorem claim_C4 (query : List Char) (index : List (List Char × List Char)) (s : Nat) :
    (List.insertionSort score_ge (scored_chunks (query_words query) index)).filter
        (fun e => e.1 == s) =
      (scored_chunks (query_words query) index).filter (fun e => e.1 == s) ∧
    ((scored_chunks (query_words query) index).map (fun e => (e.2.1, e.2.2))).Sublist index :=
  ⟨filter_insertionSort_score s _, scored_chunks_proj_sublist _ _⟩

/-- Claim C8: the scores of the entries of the truncated sorted list that
search_index returns (projected to document and chunk) are non-increasing
across the sequence. -/
theorem claim_C8 (query : List Char) (index : List (List Char × List Char)) :
    (search_scored query index).Pairwise score_ge := by
  have hsorted :
      (List.insertionSort score_ge (scored_chunks (query_words query) index)).Pairwise score_ge :=
    List.sorted_insertionSort score_ge _
  exact List.Pairwise.sublist (List.take_sublist _ _) hsorted

/-- Claim C10: every (document, chunk) pair returned by search_index is an
entry of the index, and the lowercased text of every returned chunk
contains at least one significant query word as a substring (no zero-score
chunk is returned). -/
theorem claim_C10 (query : List Char) (index : List (List Char × List Char))
    (p : List Char × List Char) (hp : p ∈ search_index query index) :
    p ∈ index ∧ ∃ w ∈ query_words query, is_substring w (lower p.2) = true := by
  unfold search_index at hp
  by_cases h1 : (lower (strip query)).isEmpty
  · rw [if_pos h1] at hp
    exact absurd hp (List.not_mem_nil p)
  · rw [if_neg h1] at hp
    by_cases h2 : (query_words query).isEmpty
    · rw [if_pos h2] at hp
      exact absurd hp (List.not_mem_nil p)
    · rw [if_neg h2] at hp
      rcases List.mem_map.mp hp with ⟨e, he, hpe⟩
      have he2 : e ∈ List.insertionSort score_ge (scored_chunks (query_words query) index) :=
        List.mem_of_mem_take he
      have he3 : e ∈ scored_chunks (query_words query) index :=
        (List.mem_insertionSort score_ge).mp he2
      rw [scored_chunks_eq] at he3
      rcases List.mem_filterMap.mp he3 with ⟨a, ha, hfa⟩
      split at hfa
      · rename_i hpos
        injection hfa with h3
        constructor
        · rw [← hpe, ← h3]
          exact ha
        · rw [chunk_score_eq] at hpos
          rcases List.countP_pos_iff.mp hpos with ⟨w, hw, hwp⟩
          refine ⟨w, hw, ?_⟩
          rw [← hpe, ← h3]
          exact hwp
      · exact Option.noConfusion hfa

/-- Witness for claim C10: the single match of a one-entry index is an
index entry and contains the significant query word. -/
theorem claim_C10_witness :
    (("Doc.pdf").toList, ("the policy text").toList) ∈
        [(("Doc.pdf").toList, ("the policy text").toList)] ∧
    ∃ w ∈ query_words ("policy").toList,
      is_substring w (lower ((("Doc.pdf").toList, ("the policy text").toList)).2) = true :=
  claim_C10 (("policy").toList) [(("Doc.pdf").toList, ("the policy text").toList)]
    ((("Doc.pdf").toList, ("the policy text").toList)) (by decide)

end AIU
